import Mathlib

/-!
Verification of the FSAR file-system activity monitor.

A shallow embedding of the change-tracking and presentation engine of the
FSAR repository (`src/FSAR.py`, `src/file_monitor.py`, `src/main.py`),
together with theorems settling the specification claims.

Modelling conventions:
* Timestamps are rationals (`Rat`), measured in seconds; `elapsed` values
  computed as `now - t` mirror `(now - t).total_seconds()`.
* Filesystem paths are lists of name components (`PathT`), the identity
  keys of every per-path map; `str(path)` keying in the source becomes
  keying by the component list (the two are in bijection).
* Python dictionaries become association lists with insertion-order
  preserving upsert (`upsertA`) and first-match lookup (`lookupA`).
* The filesystem a call observes is a `FileSys` record: `read` is the
  result of `path.read_text(...)` (`none` models a raised `OSError`, and
  a call's repeated reads of one path see one consistent result),
  `sniff` is the net result of the 512-byte NUL/UTF-8 probe that
  `_is_text` performs on extension-less files, `isFile` is
  `Path.is_file()`.  The directory tree itself is a `List FSEntry`.
-/

/-- Path: list of name components relative to the watched root. -/
abbrev PathT := List String

/-- First-match lookup in an association list (Python `dict` access). -/
def lookupA {β : Type} (l : List (PathT × β)) (k : PathT) : Option β :=
  match l with
  | [] => none
  | (a, b) :: t => if a = k then some b else lookupA t k

/-- Insert-or-replace in an association list, preserving insertion order
(Python `dict` assignment `d[k] = v`). -/
def upsertA {β : Type} (l : List (PathT × β)) (k : PathT) (v : β) : List (PathT × β) :=
  match l with
  | [] => [(k, v)]
  | (a, b) :: t => if a = k then (k, v) :: t else (a, b) :: upsertA t k v

/-! ## Chime gate (`Monitor._should_play_chime` in `src/FSAR.py`)

Constants from `Monitor.__init__`: `chime_batch_size = 10`,
`chime_cooldown = 1.0`; the isolated-change window `3.0` is written
inline in `_should_play_chime`. -/

/-- `self.chime_batch_size = 10` -/
def chimeBatchSize : Nat := 10

/-- `self.chime_cooldown = 1.0` -/
def chimeCooldown : Rat := 1

/-- Chime-gate state: `self.chime_counter` and `self.last_chime_time`. -/
structure ChimeState where
  counter : Nat
  lastTime : Rat
deriving DecidableEq, Repr

/-- `Monitor._should_play_chime` (src/FSAR.py lines 146-169): increment the
counter, compute the elapsed time since the last chime, fire iff
`(counter >= batch_size or elapsed > 3.0) and elapsed >= cooldown`;
on fire reset the counter to 0 and the last-chime time to `now`. -/
def shouldPlayChime (c : ChimeState) (now : Rat) : Bool × ChimeState :=
  let counter := c.counter + 1
  let elapsed := now - c.lastTime
  if (chimeBatchSize ≤ counter ∨ 3 < elapsed) ∧ chimeCooldown ≤ elapsed then
    (true, ⟨0, now⟩)
  else
    (false, ⟨counter, c.lastTime⟩)

/-- Feed a list of event timestamps through the chime gate, counting fires. -/
def runChime (c : ChimeState) : List Rat → Nat × ChimeState
  | [] => (0, c)
  | t :: ts =>
    let r := shouldPlayChime c t
    let rest := runChime r.2 ts
    ((if r.1 then 1 else 0) + rest.1, rest.2)

/-! ## Filesystem model, text classifier (`Monitor._is_text`) -/

/-- Kind of a filesystem event, as delivered by the watcher handler. -/
inductive EventKind where
  | created
  | modified
  | deleted
deriving DecidableEq, Repr

/-- A directory-tree entry: a file, or a directory with children. -/
inductive FSEntry where
  | file (name : String)
  | dir (name : String) (children : List FSEntry)

/-- Name of a tree entry. -/
def entryName : FSEntry → String
  | .file n => n
  | .dir n _ => n

/-- `Path.is_dir()` for a live tree entry. -/
def entryIsDir : FSEntry → Bool
  | .file _ => false
  | .dir _ _ => true

/-- The filesystem as observed by one call: `read` models
`path.read_text(encoding='utf-8', errors='ignore')` (`none` = raised
exception), `sniff` models the 512-byte NUL/UTF-8 probe of `_is_text` on
extension-less paths, `isFile` models `Path.is_file()`. -/
structure FileSys where
  read : PathT → Option String
  sniff : PathT → Bool
  isFile : PathT → Bool

/-- ASCII lowering of one character; Python `str.lower` restricted to
ASCII, which covers every extension in the allow-list below. -/
def charLower (c : Char) : Char :=
  if 'A' ≤ c ∧ c ≤ 'Z' then Char.ofNat (c.toNat + 32) else c

/-- ASCII `str.lower`. -/
def lowerAscii (s : String) : String := String.mk (s.toList.map charLower)

/-- Python `name.startswith('.')`. -/
def startsWithDot (s : String) : Bool :=
  match s.toList with
  | c :: _ => c = '.'
  | [] => false

/-- Lexicographic code-point order on character lists (Python string `<`). -/
def charListLt : List Char → List Char → Bool
  | [], [] => false
  | [], _ :: _ => true
  | _ :: _, [] => false
  | a :: as, b :: bs => a < b || (a = b && charListLt as bs)

/-- Python string `<`. -/
def strLt (x y : String) : Bool := charListLt x.toList y.toList

/-- Last path component, Python `Path(p).name`. -/
def lastName (p : PathT) : String := p.getLast?.getD ""

/-- `pathlib`'s suffix rule on a file name: the substring from the last dot,
provided that dot is neither the first nor the last character. -/
def nameSuffix (name : String) : String :=
  let cs := name.toList
  match ((cs.enum.filter (fun x => x.2 = '.')).map (fun x => x.1)).getLast? with
  | some i => if 0 < i ∧ i < cs.length - 1 then String.mk (cs.drop i) else ""
  | none => ""

/-- The fixed allow-list of text extensions in `Monitor._is_text`. -/
def textExts : List String :=
  [".txt", ".py", ".js", ".html", ".css", ".json", ".xml", ".md",
   ".yml", ".yaml", ".ini", ".cfg", ".conf", ".log", ".sql", ".sh",
   ".bat", ".ps1", ".c", ".cpp", ".h", ".java", ".cs", ".go", ".rs",
   ".php", ".rb", ".pl", ".r", ".swift", ".kt", ".dart", ".ts", ".jsx",
   ".tsx", ".vue", ".svelte", ".scss", ".sass", ".less", ".styl"]

/-- `Monitor._is_text` (identical in src/FSAR.py and src/file_monitor.py):
allow-listed extension ⇒ text; no extension ⇒ 512-byte NUL/UTF-8 probe;
anything else ⇒ not text. -/
def isText (fs : FileSys) (p : PathT) : Bool :=
  let suf := lowerAscii (nameSuffix (lastName p))
  if textExts.contains suf then true
  else if suf = "" then fs.sniff p
  else false

/-! ## Monitor state and content store -/

/-- The per-session mutable state of `Monitor` in `src/FSAR.py` that the
claims concern: the five per-path maps, the chime state and the
scroll/viewport fields. -/
structure MonState where
  changed : List (PathT × (Rat × EventKind))
  deleted : List (PathT × Rat)
  created : List (PathT × Rat)
  contents : List (PathT × String)
  backups : List (PathT × String)
  chimeCounter : Nat
  lastChimeTime : Rat
  scrollOffset : Nat
  treeHeight : Nat
  visibleLines : Nat

/-- The per-session mutable state of the `Monitor` variant in
`src/file_monitor.py` (no scroll/viewport or chime-batching fields). -/
structure FMState where
  changed : List (PathT × (Rat × EventKind))
  deleted : List (PathT × Rat)
  created : List (PathT × Rat)
  contents : List (PathT × String)
  backups : List (PathT × String)

/-- `Monitor._update_content` (src/FSAR.py lines 203-220): skip non-text
paths; if the path has no baseline yet, store the first read as baseline
(empty string when that read fails); then read again and replace the
current content (a failed read leaves `contents` untouched, the whole body
being wrapped in try/except). -/
def updateContent (fs : FileSys) (st : MonState) (p : PathT) : MonState :=
  if isText fs p = false then st
  else
    let st1 :=
      if (lookupA st.backups p).isNone then
        match fs.read p with
        | some current => { st with backups := upsertA st.backups p current }
        | none => { st with backups := upsertA st.backups p "" }
      else st
    match fs.read p with
    | some new => { st1 with contents := upsertA st1.contents p new }
    | none => st1

/-- `Monitor._update_content` (src/file_monitor.py lines 116-130): skip
non-text paths; unconditionally overwrite the baseline with the previous
current content (empty string for unseen files); then read and replace the
current content (a failed read leaves `contents` untouched). -/
def updateContentFM (fs : FileSys) (st : FMState) (p : PathT) : FMState :=
  if isText fs p = false then st
  else
    let current := (lookupA st.contents p).getD ""
    let st1 := { st with backups := upsertA st.backups p current }
    match fs.read p with
    | some new => { st1 with contents := upsertA st1.contents p new }
    | none => st1

mutual

/-- Pre-order enumeration of a tree entry with its kind
(`path, is_file`), used to model `Path.rglob('*')`. -/
def rglobE (d : PathT) : FSEntry → List (PathT × Bool)
  | .file n => [(d ++ [n], true)]
  | .dir n cs => (d ++ [n], false) :: rglobL (d ++ [n]) cs

/-- Pre-order enumeration of a list of tree entries. -/
def rglobL (d : PathT) : List FSEntry → List (PathT × Bool)
  | [] => []
  | e :: es => rglobE d e ++ rglobL d es

end

/-- `Monitor._init_contents` (src/FSAR.py lines 190-201): walk the watched
root, and for every text file whose read succeeds store the content as both
current and baseline. Returns the common map. -/
def initContents (fs : FileSys) (entries : List FSEntry) : List (PathT × String) :=
  (rglobL [] entries).foldl
    (fun acc pe =>
      if pe.2 && isText fs pe.1 then
        match fs.read pe.1 with
        | some content => upsertA acc pe.1 content
        | none => acc
      else acc)
    []

/-- `Monitor.change_path` (src/FSAR.py lines 687-716), state part, for an
existing target directory (`entries` is the new root's tree): clears the
five per-path maps, resets the scroll offset, and rescans the new root into
`contents` and `backups`.  The observer teardown/restart and the chime-file
probing are I/O glue outside the state model; nothing in the source touches
`chime_counter`, `last_chime_time`, `tree_height` or `visible_lines`. -/
def changePath (fs : FileSys) (entries : List FSEntry) (st : MonState) : MonState :=
  { st with
    changed := []
    created := []
    deleted := []
    contents := initContents fs entries
    backups := initContents fs entries
    scrollOffset := 0 }

/-- `Monitor.change_path` (src/file_monitor.py lines 423-437), state part:
clears only the three event maps; `contents` and `backups` are untouched
and there is no rescan. -/
def changePathFM (st : FMState) : FMState :=
  { st with changed := [], created := [], deleted := [] }

/-! ## Event ledger and recency classification -/

/-- `Monitor.is_recent` (src/FSAR.py lines 317-323). -/
def isRecent (changed : List (PathT × (Rat × EventKind))) (now : Rat)
    (p : PathT) (sec : Rat) : Bool :=
  match lookupA changed p with
  | some te => decide (now - te.1 < sec)
  | none => false

/-- `Monitor.get_event` (src/FSAR.py lines 325-330). -/
def getEvent (changed : List (PathT × (Rat × EventKind))) (p : PathT) :
    Option EventKind :=
  (lookupA changed p).map (fun te => te.2)

/-- `Monitor.is_deleted` (src/FSAR.py lines 332-337). -/
def isDeleted (deleted : List (PathT × Rat)) (now : Rat) (p : PathT)
    (sec : Rat) : Bool :=
  match lookupA deleted p with
  | some t => decide (now - t < sec)
  | none => false

/-- `Monitor.get_color_style` (src/FSAR.py lines 351-374, identical in
src/file_monitor.py lines 233-256): recently-deleted paths are dim-red and
struck through; otherwise created/modified events are bucketed by strict
`is_recent` windows; everything else is white. -/
def getColorStyle (st : MonState) (now : Rat) (p : PathT) :
    String × Option String :=
  let event := getEvent st.changed p
  if isDeleted st.deleted now p 30 then ("dim red", some "strike")
  else if event = some .created then
    if isRecent st.changed now p 2 then ("bright_green", none)
    else if isRecent st.changed now p 5 then ("green", none)
    else if isRecent st.changed now p 10 then ("dark_green", none)
    else ("white", none)
  else if event = some .modified then
    if isRecent st.changed now p 2 then ("bright_red", none)
    else if isRecent st.changed now p 5 then ("red", none)
    else if isRecent st.changed now p 10 then ("yellow", none)
    else if isRecent st.changed now p 30 then ("orange3", none)
    else ("white", none)
  else ("white", none)

/-- `Monitor.mark_changed` (src/FSAR.py lines 171-188): overwrite the
change record, upsert the deletion/creation mark, step the chime gate, and
for modified/created events on a live file update the content store. -/
def markChanged (fs : FileSys) (st : MonState) (p : PathT) (ev : EventKind)
    (now : Rat) : MonState :=
  let st := { st with changed := upsertA st.changed p (now, ev) }
  let st :=
    match ev with
    | .deleted => { st with deleted := upsertA st.deleted p now }
    | .created => { st with created := upsertA st.created p now }
    | .modified => st
  let r := shouldPlayChime ⟨st.chimeCounter, st.lastChimeTime⟩ now
  let st := { st with chimeCounter := r.2.counter, lastChimeTime := r.2.lastTime }
  if (ev = .modified ∨ ev = .created) ∧ fs.isFile p then updateContent fs st p
  else st

/-! ## Line splitting and diff computation

`Monitor.get_diff` splits contents with `str.splitlines(keepends=True)`
and feeds the line lists either to `difflib.SequenceMatcher` (via
`_create_simple_diff`, small inputs) or to `difflib.unified_diff`.  The
stdlib machinery is embedded below: `SequenceMatcher` with `isjunk=None`
and the autojunk popularity rule, its matching-blocks/opcodes pipeline,
and `unified_diff` with `n=3` context and default `lineterm`. -/

/-- The line-boundary characters of Python `str.splitlines`. -/
def isLineBreak (c : Char) : Bool :=
  c = '\n' || c = '\r' || c = '\x0b' || c = '\x0c' || c = '\x1c' ||
  c = '\x1d' || c = '\x1e' || c = '\x85' || c = ' ' || c = ' '

/-- Worker for `splitlinesKeepends`; `acc` holds the current line reversed. -/
def splitlinesAux : List Char → List Char → List String
  | [], acc => if acc.isEmpty then [] else [String.mk acc.reverse]
  | '\r' :: '\n' :: rest, acc =>
    String.mk (acc.reverse ++ ['\r', '\n']) :: splitlinesAux rest []
  | c :: rest, acc =>
    if isLineBreak c then String.mk (acc.reverse ++ [c]) :: splitlinesAux rest []
    else splitlinesAux rest (c :: acc)

/-- Python `str.splitlines(keepends=True)`. -/
def splitlinesKeepends (s : String) : List String :=
  splitlinesAux s.toList []

/-- Python slice `l[i:j]` for `0 ≤ i ≤ j`. -/
def pySlice {α : Type} (l : List α) (i j : Nat) : List α :=
  (l.take j).drop i

/-- `SequenceMatcher.__chain_b`'s `b2j` mapping as a function: the indices
of `b` holding `s`, emptied for popular elements when autojunk applies
(`len(b) >= 200` and more than `len(b)//100 + 1` occurrences). -/
def b2jFun (b : List String) (s : String) : List Nat :=
  let idxs := (b.enum.filter (fun x => x.2 = s)).map (fun x => x.1)
  if 200 ≤ b.length ∧ b.length / 100 + 1 < idxs.length then [] else idxs

/-- One row of the `find_longest_match` dynamic program: fold over the
column indices `js` (the `b2j` hits for `a[i]` restricted to
`[blo, bhi)`), building the new `j2len` table and updating the best
triple `(besti, bestj, bestsize)` exactly when strictly longer. -/
def flmRow (j2len : List (Nat × Nat)) (i : Nat) (js : List Nat)
    (best : Nat × Nat × Nat) : List (Nat × Nat) × (Nat × Nat × Nat) :=
  js.foldl
    (fun acc j =>
      let k := (if j = 0 then 0 else
        (match acc.1.find? (fun e => e.1 = j - 1), j2len.find? (fun e => e.1 = j - 1) with
         | _, some e => e.2
         | _, none => 0)) + 1
      let tbl := acc.1.filter (fun e => e.1 ≠ j) ++ [(j, k)]
      if acc.2.2.2 < k then (tbl, (i + 1 - k, j + 1 - k, k))
      else (tbl, acc.2))
    (([] : List (Nat × Nat)), best)

/-- Left-extension loop of `find_longest_match` (`fuel` bounds the walk,
`besti` itself suffices). -/
def flmExtLeft (a b : List String) (junk : String → Bool) (alo blo : Nat)
    (junkStep : Bool) : Nat → Nat × Nat × Nat → Nat × Nat × Nat
  | 0, s => s
  | fuel + 1, (bi, bj, bs) =>
    if alo < bi ∧ blo < bj ∧ junk (b.getD (bj - 1) "") = junkStep ∧
        a.getD (bi - 1) "" = b.getD (bj - 1) "" then
      flmExtLeft a b junk alo blo junkStep fuel (bi - 1, bj - 1, bs + 1)
    else (bi, bj, bs)

/-- Right-extension loop of `find_longest_match`. -/
def flmExtRight (a b : List String) (junk : String → Bool) (ahi bhi : Nat)
    (junkStep : Bool) : Nat → Nat × Nat × Nat → Nat × Nat × Nat
  | 0, s => s
  | fuel + 1, (bi, bj, bs) =>
    if bi + bs < ahi ∧ bj + bs < bhi ∧ junk (b.getD (bj + bs) "") = junkStep ∧
        a.getD (bi + bs) "" = b.getD (bj + bs) "" then
      flmExtRight a b junk ahi bhi junkStep fuel (bi, bj, bs + 1)
    else (bi, bj, bs)

/-- `SequenceMatcher.find_longest_match(alo, ahi, blo, bhi)` with
`isjunk=None` (so the junk predicate is constantly false). -/
def findLongestMatch (a b : List String) (alo ahi blo bhi : Nat) :
    Nat × Nat × Nat :=
  let junk : String → Bool := fun _ => false
  let best :=
    ((List.range' alo (ahi - alo)).foldl
      (fun acc i =>
        let js := (b2jFun b (a.getD i "")).filter
          (fun j => blo ≤ j && j < bhi)
        flmRow acc.1 i js acc.2)
      (([] : List (Nat × Nat)), (alo, blo, 0))).2
  let best := flmExtLeft a b junk alo blo false (best.1) best
  let best := flmExtRight a b junk ahi bhi false (ahi - best.1) best
  let best := flmExtLeft a b junk alo blo true (best.1) best
  let best := flmExtRight a b junk ahi bhi true (ahi - best.1) best
  best

/-- Lexicographic comparison of match triples (Python tuple `<=`). -/
def tripleLe (x y : Nat × Nat × Nat) : Bool :=
  x.1 < y.1 || (x.1 = y.1 && (x.2.1 < y.2.1 ||
    (x.2.1 = y.2.1 && x.2.2 ≤ y.2.2)))

/-- Stable insertion of one element into a sorted list: placed after every
element `y` with `le y x` (Python `sort` tie behaviour). -/
def insertSorted {α : Type} (le : α → α → Bool) (x : α) : List α → List α
  | [] => [x]
  | y :: ys => if le y x then y :: insertSorted le x ys else x :: y :: ys

/-- Stable sort by repeated insertion; for a total preorder this agrees
with Python's stable `sorted`. -/
def sortStable {α : Type} (le : α → α → Bool) (l : List α) : List α :=
  l.foldl (fun acc x => insertSorted le x acc) []

/-- Queue-processing loop of `get_matching_blocks`: pop from the top of
the stack, record the longest match, push the two flanking subproblems
(right one on top, matching the two `append`s followed by `pop()`). -/
def mbLoop (flm : Nat → Nat → Nat → Nat → Nat × Nat × Nat) :
    Nat → List (Nat × Nat × Nat × Nat) → List (Nat × Nat × Nat) →
    List (Nat × Nat × Nat)
  | 0, _, acc => acc
  | _ + 1, [], acc => acc
  | fuel + 1, (alo, ahi, blo, bhi) :: queue, acc =>
    let x := flm alo ahi blo bhi
    let i := x.1
    let j := x.2.1
    let k := x.2.2
    if k ≠ 0 then
      let push2 := if i + k < ahi ∧ j + k < bhi then [(i + k, ahi, j + k, bhi)] else []
      let push1 := if alo < i ∧ blo < j then [(alo, i, blo, j)] else []
      mbLoop flm fuel (push2 ++ push1 ++ queue) (acc ++ [x])
    else
      mbLoop flm fuel queue acc

/-- Adjacent-block merging pass at the end of `get_matching_blocks`. -/
def mergeAdjacent : Nat × Nat × Nat → List (Nat × Nat × Nat) →
    List (Nat × Nat × Nat)
  | (i1, j1, k1), [] => if k1 ≠ 0 then [(i1, j1, k1)] else []
  | (i1, j1, k1), (i2, j2, k2) :: rest =>
    if i1 + k1 = i2 ∧ j1 + k1 = j2 then mergeAdjacent (i1, j1, k1 + k2) rest
    else if k1 ≠ 0 then (i1, j1, k1) :: mergeAdjacent (i2, j2, k2) rest
    else mergeAdjacent (i2, j2, k2) rest

/-- `SequenceMatcher.get_matching_blocks()`: recursive longest-match
splitting (stack-based), sorted, merged, with the `(la, lb, 0)` sentinel. -/
def matchingBlocks (a b : List String) : List (Nat × Nat × Nat) :=
  let raw := mbLoop (findLongestMatch a b) (a.length + b.length + 4)
    [(0, a.length, 0, b.length)] []
  let srt := sortStable tripleLe raw
  mergeAdjacent (0, 0, 0) srt ++ [(a.length, b.length, 0)]

/-- Opcode tags of `SequenceMatcher.get_opcodes()`. -/
inductive DTag where
  | replace
  | delete
  | insert
  | equal
deriving DecidableEq, Repr, Inhabited

/-- One opcode `(tag, i1, i2, j1, j2)`. -/
structure Op where
  tag : DTag
  i1 : Nat
  i2 : Nat
  j1 : Nat
  j2 : Nat
deriving DecidableEq, Repr, Inhabited

/-- Worker of `get_opcodes`: walk the matching blocks keeping the cursor
`(i, j)`. -/
def opcodesFrom : Nat → Nat → List (Nat × Nat × Nat) → List Op
  | _, _, [] => []
  | i, j, (ai, bj, size) :: rest =>
    let front : List Op :=
      if i < ai ∧ j < bj then [⟨.replace, i, ai, j, bj⟩]
      else if i < ai then [⟨.delete, i, ai, j, bj⟩]
      else if j < bj then [⟨.insert, i, ai, j, bj⟩]
      else []
    let eq : List Op :=
      if size ≠ 0 then [⟨.equal, ai, ai + size, bj, bj + size⟩] else []
    front ++ eq ++ opcodesFrom (ai + size) (bj + size) rest

/-- `SequenceMatcher.get_opcodes()`. -/
def getOpcodes (a b : List String) : List Op :=
  opcodesFrom 0 0 (matchingBlocks a b)

/-- `Monitor._create_simple_diff` (src/FSAR.py lines 277-300): header pair
plus two-space/`- `/`+ ` prefixed lines straight from the opcodes. -/
def createSimpleDiff (oldLines newLines : List String) (filename : String) :
    List String :=
  ["--- " ++ filename ++ " (before)\n", "+++ " ++ filename ++ " (after)\n"] ++
  (getOpcodes oldLines newLines).foldl
    (fun acc op =>
      acc ++
      match op.tag with
      | .equal => (pySlice oldLines op.i1 op.i2).map (fun l => "  " ++ l)
      | .delete => (pySlice oldLines op.i1 op.i2).map (fun l => "- " ++ l)
      | .insert => (pySlice newLines op.j1 op.j2).map (fun l => "+ " ++ l)
      | .replace =>
        (pySlice oldLines op.i1 op.i2).map (fun l => "- " ++ l) ++
        (pySlice newLines op.j1 op.j2).map (fun l => "+ " ++ l))
    []

/-- `SequenceMatcher.get_grouped_opcodes(n)`: clip the leading/trailing
equal runs, then split at equal runs longer than `2n`. -/
def groupedOpcodes (a b : List String) (n : Nat) : List (List Op) :=
  let codes := getOpcodes a b
  let codes : List Op := if codes.isEmpty then [⟨.equal, 0, 1, 0, 1⟩] else codes
  let codes : List Op :=
    match codes with
    | c :: rest =>
      if c.tag = .equal then
        ⟨.equal, max c.i1 (c.i2 - n), c.i2, max c.j1 (c.j2 - n), c.j2⟩ :: rest
      else codes
    | [] => codes
  let codes : List Op :=
    match codes.getLast? with
    | some c =>
      if c.tag = .equal then
        codes.dropLast ++
          [⟨.equal, c.i1, min c.i2 (c.i1 + n), c.j1, min c.j2 (c.j1 + n)⟩]
      else codes
    | none => codes
  let nn := n + n
  let r := codes.foldl
    (fun (acc : List (List Op) × List Op) c =>
      if c.tag = .equal ∧ nn < c.i2 - c.i1 then
        (acc.1 ++ [acc.2 ++ [⟨.equal, c.i1, min c.i2 (c.i1 + n), c.j1, min c.j2 (c.j1 + n)⟩]],
         [⟨.equal, max c.i1 (c.i2 - n), c.i2, max c.j1 (c.j2 - n), c.j2⟩])
      else (acc.1, acc.2 ++ [c]))
    ([], [])
  if r.2 ≠ [] ∧ ¬(r.2.length = 1 ∧ (r.2.headD default).tag = .equal) then
    r.1 ++ [r.2]
  else r.1

/-- `difflib._format_range_unified`. -/
def formatRangeUnified (start stop : Nat) : String :=
  let beginning := start + 1
  let length := stop - start
  if length = 1 then toString beginning
  else
    let beginning := if length = 0 then beginning - 1 else beginning
    toString beginning ++ "," ++ toString length

/-- `difflib.unified_diff(a, b, fromfile, tofile, n)` with the default
`lineterm='\n'` and empty file dates: `---`/`+++` headers before the first
group, an `@@` hunk header per group, then prefixed lines. -/
def unifiedDiff (a b : List String) (fromfile tofile : String) (n : Nat) :
    List String :=
  (groupedOpcodes a b n).enum.foldl
    (fun acc gg =>
      let headers :=
        if gg.1 = 0 then
          ["--- " ++ fromfile ++ "\n", "+++ " ++ tofile ++ "\n"]
        else []
      let first := gg.2.headD default
      let last := gg.2.getLastD default
      let hunk := "@@ -" ++ formatRangeUnified first.i1 last.i2 ++
        " +" ++ formatRangeUnified first.j1 last.j2 ++ " @@\n"
      let body := gg.2.foldl
        (fun bacc op =>
          bacc ++
          match op.tag with
          | .equal => (pySlice a op.i1 op.i2).map (fun l => " " ++ l)
          | .replace =>
            (pySlice a op.i1 op.i2).map (fun l => "-" ++ l) ++
            (pySlice b op.j1 op.j2).map (fun l => "+" ++ l)
          | .delete => (pySlice a op.i1 op.i2).map (fun l => "-" ++ l)
          | .insert => (pySlice b op.j1 op.j2).map (fun l => "+" ++ l))
        []
      acc ++ headers ++ [hunk] ++ body)
    []

/-- The pure core of `Monitor.get_diff` (src/FSAR.py lines 251-275) given
the stored baseline `old`, current `new` and the file name: `none` when
equal; the simple diff for small line counts (`<= 10` old, `<= 15` new),
the unified diff otherwise; `none` again if the result is empty. -/
def diffTexts (old new : String) (name : String) : Option (List String) :=
  if old = new then none
  else
    let oldLines := splitlinesKeepends old
    let newLines := splitlinesKeepends new
    let d :=
      if oldLines.length ≤ 10 ∧ newLines.length ≤ 15 then
        createSimpleDiff oldLines newLines name
      else
        unifiedDiff oldLines newLines (name ++ " (before)") (name ++ " (after)") 3
    if d.isEmpty then none else some d

/-- The pure core of `Monitor.get_diff` (src/file_monitor.py lines
161-182): always the unified diff. -/
def diffTextsFM (old new : String) (name : String) : Option (List String) :=
  if old = new then none
  else
    let oldLines := splitlinesKeepends old
    let newLines := splitlinesKeepends new
    let d := unifiedDiff oldLines newLines (name ++ " (before)") (name ++ " (after)") 3
    if d.isEmpty then none else some d

/-- `Monitor.get_diff` (src/FSAR.py): `none` unless both a baseline and a
current snapshot exist, then `diffTexts`. -/
def getDiff (backups contents : List (PathT × String)) (p : PathT) :
    Option (List String) :=
  match lookupA backups p, lookupA contents p with
  | some old, some new => diffTexts old new (lastName p)
  | _, _ => none

/-- `Monitor.get_diff` (src/file_monitor.py). -/
def getDiffFM (backups contents : List (PathT × String)) (p : PathT) :
    Option (List String) :=
  match lookupA backups p, lookupA contents p with
  | some old, some new => diffTextsFM old new (lastName p)
  | _, _ => none

/-! ## Tree view builder (`Monitor._collect_tree_items` / `build_tree`) -/

/-- One display row collected by `_collect_tree_items`: the dict
`{'path': item, 'depth': depth, 'is_dir': item.is_dir() and item.exists()}`. -/
structure Row where
  path : PathT
  depth : Nat
  isDir : Bool
deriving DecidableEq, Repr

/-- The sort key order of `sorted(directory.iterdir(), key=lambda x:
(x.is_file(), x.name.lower()))`: directories before files, then
case-insensitive name. -/
def entryLe (x y : FSEntry) : Bool :=
  let fx := !entryIsDir x
  let fy := !entryIsDir y
  (!fx && fy) ||
    (fx = fy && (strLt (lowerAscii (entryName x)) (lowerAscii (entryName y)) ||
      lowerAscii (entryName x) = lowerAscii (entryName y)))

/-- An item of one directory level of the traversal: a live child from
`iterdir`, or the `Path` of a recently-deleted entry appended after the
sorted listing. -/
inductive LevelItem where
  | live (e : FSEntry)
  | tomb (q : PathT)

/-- `Monitor._collect_tree_items` (src/FSAR.py lines 423-450) at one
directory, given that directory's live children `entries` and its path
`dirPath`: list the sorted children followed by the recently-deleted
paths whose parent is this directory, skip dot-prefixed names, emit a row
per item, and recurse into existing directories.  The fuel argument is
`max_depth - depth`, so `fuel = 0` is exactly the `depth >= max_depth`
guard; the top-level call uses fuel 10 and depth 0.  A tombstone path is
a `Path` object whose `is_dir()`/`exists()` are resolved against the
current live listing. -/
def collectItems (deleted : List (PathT × Rat)) (now : Rat) :
    Nat → List FSEntry → PathT → Nat → List Row
  | 0, _, _, _ => []
  | fuel + 1, entries, dirPath, depth =>
    let live := sortStable entryLe entries
    let tombs := deleted.filterMap
      (fun qt =>
        if ¬qt.1.isEmpty ∧ qt.1.dropLast = dirPath ∧
            isDeleted deleted now qt.1 30 then some qt.1 else none)
    let items := live.map LevelItem.live ++ tombs.map LevelItem.tomb
    items.foldr
      (fun it acc =>
        (match it with
         | .live e =>
           let nm := entryName e
           if startsWithDot nm then []
           else
             ⟨dirPath ++ [nm], depth, entryIsDir e⟩ ::
             (match e with
              | .dir _ cs =>
                collectItems deleted now fuel cs (dirPath ++ [nm]) (depth + 1)
              | .file _ => [])
         | .tomb q =>
           let nm := lastName q
           if startsWithDot nm then []
           else
             match entries.find? (fun e => entryName e = nm) with
             | some (.dir _ cs) =>
               ⟨q, depth, true⟩ ::
               collectItems deleted now fuel cs q (depth + 1)
             | some (.file _) => [⟨q, depth, false⟩]
             | none => [⟨q, depth, false⟩]) ++ acc)
      []

mutual

/-- All live paths under a tree entry rooted at directory path `d`
(the entry's own path first). -/
def livePathsE (d : PathT) : FSEntry → List PathT
  | .file n => [d ++ [n]]
  | .dir n cs => (d ++ [n]) :: livePathsL (d ++ [n]) cs

/-- All live paths under a list of entries. -/
def livePathsL (d : PathT) : List FSEntry → List PathT
  | [] => []
  | e :: es => livePathsE d e ++ livePathsL d es

end

/-- Diff-index assignment of `Monitor._add_tree_item` (src/FSAR.py lines
452-509) over a row list: file rows that are text and have a pending
diff get the running 1-based index recorded in `file_idx`. -/
def assignIdx (fs : FileSys) (backups contents : List (PathT × String)) :
    List Row → Nat → List (Nat × PathT)
  | [], _ => []
  | r :: rs, i =>
    if !r.isDir && isText fs r.path && (getDiff backups contents r.path).isSome then
      (i, r.path) :: assignIdx fs backups contents rs (i + 1)
    else assignIdx fs backups contents rs i

/-- The value of a `build_tree` call (src/FSAR.py lines 376-402): the full
collected row list, the raw-offset slice actually rendered, the header
numbers `line {scroll_offset+1}-{min(scroll_offset+visible, height)} of
{height}`, the rebuilt `file_idx`, and the end-of-tree marker flag.
`visibleCount` is the value `_calculate_visible_lines()` returned for
this render. -/
structure TreeView where
  rows : List Row
  visible : List Row
  startLine : Nat
  endLine : Nat
  total : Nat
  fileIdx : List (Nat × PathT)
  endMarker : Bool
deriving Repr

/-- `Monitor.build_tree` for an existing root: collect rows (fuel 10 =
`max_depth`), set the tree height, slice `tree_items[scroll_offset :
scroll_offset + visible_count]` with the *stored* offset, and assign diff
indices to the visible rows only. -/
def buildTree (fs : FileSys) (entries : List FSEntry) (st : MonState)
    (now : Rat) (visibleCount : Nat) : TreeView :=
  let rows := collectItems st.deleted now 10 entries [] 0
  let th := rows.length
  let visible := (rows.drop st.scrollOffset).take visibleCount
  { rows := rows
    visible := visible
    startLine := st.scrollOffset + 1
    endLine := min (st.scrollOffset + visibleCount) th
    total := th
    fileIdx := assignIdx fs st.backups st.contents visible 1
    endMarker := decide (th ≤ st.scrollOffset + visibleCount ∧ 0 < th) }

/-- `Monitor._scroll_up`: `max(0, offset - 5)`. -/
def scrollUp (st : MonState) : MonState :=
  { st with scrollOffset := max 0 (st.scrollOffset - 5) }

/-- `Monitor._scroll_down`: clamp `offset + 5` to
`max(0, tree_height - visible_lines)`. -/
def scrollDown (st : MonState) : MonState :=
  let maxScroll := max 0 (st.treeHeight - st.visibleLines)
  { st with scrollOffset := min maxScroll (st.scrollOffset + 5) }

/-- `Monitor._page_up`: `max(0, offset - visible_lines)`. -/
def pageUp (st : MonState) : MonState :=
  { st with scrollOffset := max 0 (st.scrollOffset - st.visibleLines) }

/-- `Monitor._page_down`: clamp `offset + visible_lines` to
`max(0, tree_height - visible_lines)`. -/
def pageDown (st : MonState) : MonState :=
  let maxScroll := max 0 (st.treeHeight - st.visibleLines)
  { st with scrollOffset := min maxScroll (st.scrollOffset + st.visibleLines) }

/-! ## Concrete fixtures used by counterexamples and witnesses -/

/-- A filesystem whose reads always succeed with `"B\n"`. -/
def fsReadB : FileSys := ⟨fun _ => some "B\n", fun _ => false, fun _ => true⟩

/-- A filesystem whose reads always succeed with `"C\n"`. -/
def fsReadC : FileSys := ⟨fun _ => some "C\n", fun _ => false, fun _ => true⟩

/-- A filesystem whose reads always fail. -/
def fsFail : FileSys := ⟨fun _ => none, fun _ => false, fun _ => true⟩

/-- A filesystem whose reads are irrelevant to the call under test. -/
def fsAny : FileSys := ⟨fun _ => none, fun _ => false, fun _ => true⟩

/-- `file_monitor.py` state after the initial scan of a root holding one
text file `a.txt` with content `"A\n"` (its `_init_contents` fills only
`contents`). -/
def fmScanA : FMState := ⟨[], [], [], [(["a.txt"], "A\n")], []⟩

/-- An empty FSAR monitor state. -/
def monEmpty : MonState := ⟨[], [], [], [], [], 0, 0, 0, 0, 30⟩

/-- An FSAR monitor state with 7 pending chime events and a last chime at
time 5. -/
def monChime7 : MonState := ⟨[], [], [], [], [], 7, 5, 0, 0, 30⟩

/-- An FSAR monitor state whose stored scroll offset (5) exceeds the
current row count of the small tree used in the pagination counterexample. -/
def monScroll5 : MonState := ⟨[], [], [], [], [], 0, 0, 5, 100, 30⟩

/-- A root with a single text file. -/
def entriesOne : List FSEntry := [.file "a.txt"]

/-- A root with two text files. -/
def entriesTwo : List FSEntry := [.file "a.txt", .file "b.txt"]

/-- An FSAR monitor state storing pending diffs for both `a.txt` and
`b.txt` (baseline `"x\n"`, current `"y\n"`). -/
def monTwoDiffs : MonState :=
  ⟨[], [], [], [(["a.txt"], "y\n"), (["b.txt"], "y\n")],
   [(["a.txt"], "x\n"), (["b.txt"], "x\n")], 0, 0, 0, 0, 30⟩

/-- Baseline map of the diff-variant counterexample. -/
def bkSmall : List (PathT × String) := [(["a.txt"], "a\n")]

/-- Current map of the diff-variant counterexample. -/
def ctSmall : List (PathT × String) := [(["a.txt"], "b\n")]

/-- 1-based enumeration of a list starting at `i`. -/
def indexFrom {α : Type} (i : Nat) : List α → List (Nat × α)
  | [] => []
  | x :: xs => (i, x) :: indexFrom (i + 1) xs

/-- The predicate selecting rows that receive a diff index in
`_add_tree_item`: file rows that are text and have a pending diff. -/
def diffRow (fs : FileSys) (backups contents : List (PathT × String))
    (r : Row) : Bool :=
  !r.isDir && isText fs r.path && (getDiff backups contents r.path).isSome

/-! ## Theorems: association-list laws -/

theorem lookupA_upsertA_self {β : Type} (l : List (PathT × β)) (k : PathT) (v : β) :
    lookupA (upsertA l k v) k = some v := by
  induction l with
  | nil => simp [upsertA, lookupA]
  | cons hd t ih =>
    obtain ⟨a, b⟩ := hd
    by_cases h : a = k <;> simp [upsertA, lookupA, h, ih]

theorem lookupA_upsertA_ne {β : Type} (l : List (PathT × β)) (k k' : PathT) (v : β)
    (h : k ≠ k') : lookupA (upsertA l k v) k' = lookupA l k' := by
  induction l with
  | nil => simp [upsertA, lookupA, h]
  | cons hd t ih =>
    obtain ⟨a, b⟩ := hd
    by_cases ha : a = k
    · subst ha
      simp [upsertA, lookupA, h, ih]
    · simp only [upsertA, if_neg ha, lookupA]
      by_cases ha' : a = k' <;> simp [ha', ih]

theorem lookupA_mem {β : Type} {l : List (PathT × β)} {k : PathT} {v : β}
    (h : lookupA l k = some v) : (k, v) ∈ l := by
  induction l with
  | nil => simp [lookupA] at h
  | cons hd t ih =>
    obtain ⟨a, b⟩ := hd
    simp only [lookupA] at h
    by_cases ha : a = k
    · rw [if_pos ha] at h
      cases h
      subst ha
      exact List.mem_cons_self _ _
    · rw [if_neg ha] at h
      exact List.mem_cons_of_mem _ (ih h)

theorem shouldPlayChime_fire_iff (c : ChimeState) (now : Rat) :
    (shouldPlayChime c now).1 = true ↔
      ((chimeBatchSize ≤ c.counter + 1 ∨ 3 < now - c.lastTime) ∧
        chimeCooldown ≤ now - c.lastTime) := by
  simp only [shouldPlayChime]
  split <;> simp_all

theorem shouldPlayChime_fire_state (c : ChimeState) (now : Rat)
    (h : (shouldPlayChime c now).1 = true) :
    (shouldPlayChime c now).2 = ⟨0, now⟩ := by
  simp only [shouldPlayChime] at *
  split at h <;> simp_all

theorem shouldPlayChime_nofire_state (c : ChimeState) (now : Rat)
    (h : (shouldPlayChime c now).1 = false) :
    (shouldPlayChime c now).2 = ⟨c.counter + 1, c.lastTime⟩ := by
  simp only [shouldPlayChime] at *
  split at h
  · simp_all
  · split <;> simp_all

/-- If the gate's last-fire time is so late that every remaining event is
within the 1-second cooldown, no event fires. -/
theorem runChime_zero_of_cooldown (ts : List Rat) (hi : Rat) :
    ∀ c : ChimeState, (∀ t ∈ ts, t ≤ hi) → hi < c.lastTime + 1 →
      (runChime c ts).1 = 0 := by
  induction ts with
  | nil => intro c _ _; simp [runChime]
  | cons t ts ih =>
    intro c hts hcool
    have hfalse : (shouldPlayChime c t).1 = false := by
      rcases hb : (shouldPlayChime c t).1 with _ | _
      · rfl
      · exfalso
        have := (shouldPlayChime_fire_iff c t).1 hb
        have h1 : chimeCooldown ≤ t - c.lastTime := this.2
        have ht : t ≤ hi := hts t (List.mem_cons_self _ _)
        rw [chimeCooldown] at h1
        linarith
    have hstate := shouldPlayChime_nofire_state c t hfalse
    simp only [runChime, hfalse, if_neg, hstate]
    have := ih ⟨c.counter + 1, c.lastTime⟩
      (fun x hx => hts x (List.mem_cons_of_mem _ hx)) hcool
    simpa using this

/-- Once the last-fire time is inside the window `[a, a+1]`, at most one
further fire can happen among events bounded by `a + 1`. -/
theorem runChime_le_one_of_anchored (ts : List Rat) (a : Rat) :
    ∀ c : ChimeState, (∀ t ∈ ts, a ≤ t ∧ t ≤ a + 1) → a ≤ c.lastTime →
      (runChime c ts).1 ≤ 1 := by
  induction ts with
  | nil => intro c _ _; simp [runChime]
  | cons t ts ih =>
    intro c hts hanchor
    have htt := hts t (List.mem_cons_self _ _)
    have hrest : ∀ x ∈ ts, a ≤ x ∧ x ≤ a + 1 :=
      fun x hx => hts x (List.mem_cons_of_mem _ hx)
    rcases hb : (shouldPlayChime c t).1 with _ | _
    · have hstate := shouldPlayChime_nofire_state c t hb
      simp only [runChime, hb, hstate]
      simpa using ih ⟨c.counter + 1, c.lastTime⟩ hrest hanchor
    · have hstate := shouldPlayChime_fire_state c t hb
      have hiff := (shouldPlayChime_fire_iff c t).1 hb
      have hcool : chimeCooldown ≤ t - c.lastTime := hiff.2
      rw [chimeCooldown] at hcool
      simp only [runChime, hb, hstate]
      have hzero : (runChime ⟨0, t⟩ ts).1 = 0 := by
        refine runChime_zero_of_cooldown ts (a + 1) ⟨0, t⟩
          (fun x hx => (hrest x hx).2) ?_
        show a + 1 < t + 1
        linarith [htt.1, hanchor, hcool]
      simp [hzero]

/-- At most two fires can happen among events whose timestamps all lie in a
window `[a, a+1]` of one second, whatever the initial gate state. -/
theorem runChime_le_two_in_window (ts : List Rat) (a : Rat) :
    ∀ c : ChimeState, (∀ t ∈ ts, a ≤ t ∧ t ≤ a + 1) →
      (runChime c ts).1 ≤ 2 := by
  induction ts with
  | nil => intro c _; simp [runChime]
  | cons t ts ih =>
    intro c hts
    have htt := hts t (List.mem_cons_self _ _)
    have hrest : ∀ x ∈ ts, a ≤ x ∧ x ≤ a + 1 :=
      fun x hx => hts x (List.mem_cons_of_mem _ hx)
    rcases hb : (shouldPlayChime c t).1 with _ | _
    · have hstate := shouldPlayChime_nofire_state c t hb
      simp only [runChime, hb, hstate]
      simpa using ih ⟨c.counter + 1, c.lastTime⟩ hrest
    · have hstate := shouldPlayChime_fire_state c t hb
      simp only [runChime, hb, hstate]
      have hone : (runChime ⟨0, t⟩ ts).1 ≤ 1 :=
        runChime_le_one_of_anchored ts a ⟨0, t⟩ hrest htt.1
      simp only [if_pos trivial]
      omega

/-- C2: on each observed event the chime gate first increments the pending
counter and computes `elapsed = now - lastFiredAt`; it fires — resetting the
counter to 0 and the last-fire time to `now` — iff
`(counter >= 10 or elapsed > 3.0) and elapsed >= 1.0`; a non-firing call
keeps the incremented counter and leaves the last-fire time unchanged. -/
theorem chime_gate_step (c : ChimeState) (now : Rat) :
    ((shouldPlayChime c now).1 = true ↔
      ((10 ≤ c.counter + 1 ∨ 3 < now - c.lastTime) ∧ 1 ≤ now - c.lastTime))
    ∧ ((shouldPlayChime c now).1 = true →
        (shouldPlayChime c now).2 = ⟨0, now⟩)
    ∧ ((shouldPlayChime c now).1 = false →
        (shouldPlayChime c now).2 = ⟨c.counter + 1, c.lastTime⟩) := by
  refine ⟨?_, shouldPlayChime_fire_state c now, shouldPlayChime_nofire_state c now⟩
  simpa [chimeBatchSize, chimeCooldown] using shouldPlayChime_fire_iff c now

/-- Witness for `chime_gate_step`: an isolated event 4 seconds after the last
fire, with 5 pending events, fires and resets the state. -/
theorem chime_gate_step_witness :
    (shouldPlayChime ⟨5, 0⟩ 4).1 = true ∧
      (shouldPlayChime ⟨5, 0⟩ 4).2 = ⟨0, 4⟩ := by
  have h : (shouldPlayChime ⟨5, 0⟩ 4).1 = true :=
    (chime_gate_step ⟨5, 0⟩ 4).1.mpr (by norm_num)
  exact ⟨h, (chime_gate_step ⟨5, 0⟩ 4).2.1 h⟩

/-- C8: feeding the chime gate 25 events whose timestamps all lie within one
simulated second fires at most 3 times and never 25 times; one isolated event
whose timestamp is 4 seconds after the last fire fires exactly once. -/
theorem chime_burst_suppression :
    (∀ (c : ChimeState) (a : Rat) (ts : List Rat), ts.length = 25 →
      (∀ t ∈ ts, a ≤ t ∧ t ≤ a + 1) →
      (runChime c ts).1 ≤ 3 ∧ (runChime c ts).1 < 25)
    ∧ (∀ c : ChimeState, ∀ t : Rat, t - c.lastTime = 4 →
        (runChime c [t]).1 = 1) := by
  constructor
  · intro c a ts _ hts
    have h2 := runChime_le_two_in_window ts a c hts
    exact ⟨by omega, by omega⟩
  · intro c t h4
    have hfire : (shouldPlayChime c t).1 = true := by
      refine (shouldPlayChime_fire_iff c t).2 ⟨Or.inr ?_, ?_⟩
      · rw [h4]; norm_num
      · rw [chimeCooldown, h4]; norm_num
    simp [runChime, hfire]

/-- Witness for `chime_burst_suppression`: 25 events all at time 0 (the gate
state starting at time 0) fire at most 3 times, and a single event at time 4
fires exactly once. -/
theorem chime_burst_suppression_witness :
    (runChime ⟨0, 0⟩ (List.replicate 25 (0 : Rat))).1 ≤ 3 ∧
      (runChime ⟨0, 0⟩ [(4 : Rat)]).1 = 1 := by
  constructor
  · exact (chime_burst_suppression.1 ⟨0, 0⟩ 0 (List.replicate 25 0)
      (by decide) (by intro t ht; simp at ht; simp [ht])).1
  · exact chime_burst_suppression.2 ⟨0, 0⟩ 4 (by norm_num)

/-! ## Helper lemmas about lists, sorting and the traversal -/

theorem mem_foldr_append {α β : Type} (g : α → List β) (l : List α) (x : β) :
    x ∈ l.foldr (fun it acc => g it ++ acc) [] ↔ ∃ it ∈ l, x ∈ g it := by
  induction l with
  | nil => simp
  | cons a l ih => simp [ih]

theorem mem_insertSorted {α : Type} (le : α → α → Bool) (x a : α) (l : List α) :
    a ∈ insertSorted le x l ↔ a = x ∨ a ∈ l := by
  induction l with
  | nil => simp [insertSorted]
  | cons y ys ih =>
    simp only [insertSorted]
    split <;> (simp [ih]; try tauto)

theorem mem_sortStable {α : Type} (le : α → α → Bool) (l : List α) (a : α) :
    a ∈ sortStable le l ↔ a ∈ l := by
  suffices h : ∀ acc, a ∈ l.foldl (fun acc x => insertSorted le x acc) acc ↔
      a ∈ acc ∨ a ∈ l by
    simpa [sortStable] using h []
  induction l with
  | nil => intro acc; simp
  | cons x xs ih =>
    intro acc
    simp only [List.foldl_cons, ih, mem_insertSorted]
    simp
    tauto

theorem livePathsE_subset {d : PathT} {e : FSEntry} {entries : List FSEntry}
    (he : e ∈ entries) {x : PathT} (hx : x ∈ livePathsE d e) :
    x ∈ livePathsL d entries := by
  induction entries with
  | nil => simp at he
  | cons f fs ih =>
    rcases List.mem_cons.1 he with h | h
    · subst h
      simp [livePathsL, hx]
    · simp [livePathsL, ih h]

/-- `updateContent` on a path with an existing baseline and a successful
read: only the current content changes. -/
theorem updateContent_existing (fs : FileSys) (st : MonState) (p : PathT)
    (a b : String) (ht : isText fs p = true)
    (hb : lookupA st.backups p = some a) (hr : fs.read p = some b) :
    updateContent fs st p = { st with contents := upsertA st.contents p b } := by
  unfold updateContent
  rw [ht]
  simp [hb, hr]

/-- C1 (amended): in the `src/FSAR.py` content store, once a baseline is
stored for a path, `_update_content` never changes it: after two further
modifications read as `b` and then `c`, the baseline is still `a`, the
current content is `c`, and `get_diff` is computed from `a` and `c` (never
from `b`).  The `src/file_monitor.py` variant does not satisfy this
(see the counterexample): it rewrites `backups[p]` on every update. -/
theorem baseline_immutability (st : MonState) (p : PathT) (a b c : String)
    (fs1 fs2 : FileSys) (ht1 : isText fs1 p = true) (ht2 : isText fs2 p = true)
    (hb : lookupA st.backups p = some a)
    (hr1 : fs1.read p = some b) (hr2 : fs2.read p = some c) :
    lookupA (updateContent fs2 (updateContent fs1 st p) p).backups p = some a ∧
    lookupA (updateContent fs2 (updateContent fs1 st p) p).contents p = some c ∧
    getDiff (updateContent fs2 (updateContent fs1 st p) p).backups
      (updateContent fs2 (updateContent fs1 st p) p).contents p =
      diffTexts a c (lastName p) := by
  have h1 := updateContent_existing fs1 st p a b ht1 hb hr1
  have hb1 : lookupA (updateContent fs1 st p).backups p = some a := by
    rw [h1]
    exact hb
  have h2 := updateContent_existing fs2 (updateContent fs1 st p) p a c ht2 hb1 hr2
  have hbk : lookupA (updateContent fs2 (updateContent fs1 st p) p).backups p
      = some a := by
    rw [h2]
    exact hb1
  have hct : lookupA (updateContent fs2 (updateContent fs1 st p) p).contents p
      = some c := by
    rw [h2]
    exact lookupA_upsertA_self _ _ _
  refine ⟨hbk, hct, ?_⟩
  unfold getDiff
  rw [hbk, hct]

/-- Witness for `baseline_immutability`: scan content `"A\n"`, then reads
`"B\n"` and `"C\n"`; the baseline stays `"A\n"` and the diff is the
`A → C` diff. -/
theorem baseline_immutability_witness :
    lookupA (updateContent fsReadC (updateContent fsReadB
      ⟨[], [], [], [(["a.txt"], "A\n")], [(["a.txt"], "A\n")], 0, 0, 0, 0, 30⟩
      ["a.txt"]) ["a.txt"]).backups ["a.txt"] = some "A\n" ∧
    lookupA (updateContent fsReadC (updateContent fsReadB
      ⟨[], [], [], [(["a.txt"], "A\n")], [(["a.txt"], "A\n")], 0, 0, 0, 0, 30⟩
      ["a.txt"]) ["a.txt"]).contents ["a.txt"] = some "C\n" ∧
    getDiff (updateContent fsReadC (updateContent fsReadB
      ⟨[], [], [], [(["a.txt"], "A\n")], [(["a.txt"], "A\n")], 0, 0, 0, 0, 30⟩
      ["a.txt"]) ["a.txt"]).backups
      (updateContent fsReadC (updateContent fsReadB
      ⟨[], [], [], [(["a.txt"], "A\n")], [(["a.txt"], "A\n")], 0, 0, 0, 0, 30⟩
      ["a.txt"]) ["a.txt"]).contents ["a.txt"] =
      diffTexts "A\n" "C\n" (lastName ["a.txt"]) :=
  baseline_immutability _ ["a.txt"] "A\n" "B\n" "C\n" fsReadB fsReadC
    (by decide) (by decide) (by decide) (by decide) (by decide)

/-- C1 counterexample: under `src/file_monitor.py`'s `_update_content`, a
path scanned with content `"A\n"` gets baseline `"A\n"` at its first
tracked modification (read `"B\n"`), but the second modification (read
`"C\n"`) overwrites that baseline with `"B\n"`, and `get_diff` reports
`B → C` instead of `A → C`. -/
theorem baseline_overwritten_fm :
    lookupA (updateContentFM fsReadB fmScanA ["a.txt"]).backups ["a.txt"]
      = some "A\n" ∧
    lookupA (updateContentFM fsReadC (updateContentFM fsReadB fmScanA
      ["a.txt"]) ["a.txt"]).backups ["a.txt"] = some "B\n" ∧
    ("B\n" : String) ≠ "A\n" ∧
    getDiffFM (updateContentFM fsReadC (updateContentFM fsReadB fmScanA
      ["a.txt"]) ["a.txt"]).backups
      (updateContentFM fsReadC (updateContentFM fsReadB fmScanA
      ["a.txt"]) ["a.txt"]).contents ["a.txt"] =
      some ["--- a.txt (before)\n", "+++ a.txt (after)\n",
        "@@ -1 +1 @@\n", "-B\n", "+C\n"] := by
  refine ⟨by decide, by decide, by decide, by decide⟩

/-- C5 (amended): when a read fails during a modified/created update of a
trackable path, the `contents` entry is never created or modified, and an
*existing* baseline entry is untouched (`src/FSAR.py` is then a no-op);
but when the path has no baseline yet, `src/FSAR.py` creates
`backups[p] = ""`, and `src/file_monitor.py` unconditionally rewrites
`backups[p]` to the previous current content. -/
theorem read_failure_store (fs : FileSys) (st : MonState) (stf : FMState)
    (p : PathT) (ht : isText fs p = true) (hr : fs.read p = none) :
    ((lookupA st.backups p).isSome → updateContent fs st p = st) ∧
    (lookupA st.backups p = none →
      (updateContent fs st p).backups = upsertA st.backups p "" ∧
      (updateContent fs st p).contents = st.contents) ∧
    ((updateContentFM fs stf p).backups =
      upsertA stf.backups p ((lookupA stf.contents p).getD "") ∧
    (updateContentFM fs stf p).contents = stf.contents) := by
  refine ⟨?_, ?_, ?_⟩
  · intro hsome
    unfold updateContent
    rw [ht]
    simp only [Bool.true_eq_false, if_false]
    rw [if_neg (by simp [Option.isNone_iff_eq_none]; exact Option.isSome_iff_ne_none.1 hsome)]
    simp [hr]
  · intro hnone
    unfold updateContent
    rw [ht]
    simp [hnone, hr]
  · unfold updateContentFM
    rw [ht]
    simp [hr]

/-- Witness for `read_failure_store` at a concrete text path whose read
fails, with an existing baseline in the FSAR store. -/
theorem read_failure_store_witness :
    updateContent fsFail
      ⟨[], [], [], [], [(["f.txt"], "old")], 0, 0, 0, 0, 30⟩ ["f.txt"] =
      ⟨[], [], [], [], [(["f.txt"], "old")], 0, 0, 0, 0, 30⟩ ∧
    (updateContentFM fsFail ⟨[], [], [], [], []⟩ ["f.txt"]).contents = [] :=
  ⟨(read_failure_store fsFail
      ⟨[], [], [], [], [(["f.txt"], "old")], 0, 0, 0, 0, 30⟩
      ⟨[], [], [], [], []⟩ ["f.txt"] (by decide) rfl).1 (by decide),
   (read_failure_store fsFail monEmpty ⟨[], [], [], [], []⟩ ["f.txt"]
      (by decide) rfl).2.2.2⟩

/-- C5 counterexample: in `src/FSAR.py`, a failing read on a trackable
path with no baseline yet *creates* the baseline entry `backups[p] = ""`,
so the store is not left unchanged. -/
theorem read_failure_creates_baseline :
    lookupA monEmpty.backups ["f.txt"] = none ∧
    lookupA (updateContent fsFail monEmpty ["f.txt"]).backups ["f.txt"]
      = some "" := by
  exact ⟨by decide, by decide⟩

/-- C6 (amended): `change_path` to an existing directory clears the
change-record, creation-mark, deletion-mark and both content-snapshot maps
(`contents`/`backups` are then repopulated by rescanning the new root) and
resets the scroll offset, but it does **not** reset the chime state:
`chime_counter` and `last_chime_time` keep their previous values
(`src/FSAR.py`).  The `src/file_monitor.py` variant clears only the three
event maps and leaves `contents`/`backups` holding the old root's data. -/
theorem change_path_reset (fs : FileSys) (entries : List FSEntry)
    (st : MonState) (stf : FMState) :
    (changePath fs entries st).changed = [] ∧
    (changePath fs entries st).created = [] ∧
    (changePath fs entries st).deleted = [] ∧
    (changePath fs entries st).contents = initContents fs entries ∧
    (changePath fs entries st).backups = initContents fs entries ∧
    (changePath fs entries st).scrollOffset = 0 ∧
    (changePath fs entries st).chimeCounter = st.chimeCounter ∧
    (changePath fs entries st).lastChimeTime = st.lastChimeTime ∧
    (changePathFM stf).changed = [] ∧
    (changePathFM stf).created = [] ∧
    (changePathFM stf).deleted = [] ∧
    (changePathFM stf).contents = stf.contents ∧
    (changePathFM stf).backups = stf.backups := by
  refine ⟨rfl, rfl, rfl, rfl, rfl, rfl, rfl, rfl, rfl, rfl, rfl, rfl, rfl⟩

/-- C6 counterexample: switching directory with 7 pending chime events and
a last chime at time 5 leaves the chime state at `(7, 5)`, not `(0, now)`. -/
theorem change_path_keeps_chime :
    (changePath fsAny [] monChime7).chimeCounter = 7 ∧
    (changePath fsAny [] monChime7).lastChimeTime = 5 ∧
    (7 : Nat) ≠ 0 := by
  exact ⟨rfl, rfl, by decide⟩

/-- C4: recency styling tiers with strict boundaries.  A deletion mark
within 30s yields dim-red strike-through and overrides everything else;
otherwise a latest-kind Created event is bucketed by strict `<` into
`<2s`/`<5s`/`<10s` → bright-green/green/dark-green (white beyond 10s), and
a latest-kind Modified event into `<2s`/`<5s`/`<10s`/`<30s` →
bright-red/red/yellow/orange (white beyond 30s); in particular a Created
event at exactly 2 seconds elapsed is green, not bright-green. -/
theorem recency_tiers (st : MonState) (now : Rat) (p : PathT) :
    (isDeleted st.deleted now p 30 = true →
      getColorStyle st now p = ("dim red", some "strike")) ∧
    (isDeleted st.deleted now p 30 = false → ∀ t : Rat,
      (lookupA st.changed p = some (t, .created) →
        (now - t < 2 → getColorStyle st now p = ("bright_green", none)) ∧
        (2 ≤ now - t → now - t < 5 → getColorStyle st now p = ("green", none)) ∧
        (5 ≤ now - t → now - t < 10 →
          getColorStyle st now p = ("dark_green", none)) ∧
        (10 ≤ now - t → getColorStyle st now p = ("white", none))) ∧
      (lookupA st.changed p = some (t, .modified) →
        (now - t < 2 → getColorStyle st now p = ("bright_red", none)) ∧
        (2 ≤ now - t → now - t < 5 → getColorStyle st now p = ("red", none)) ∧
        (5 ≤ now - t → now - t < 10 →
          getColorStyle st now p = ("yellow", none)) ∧
        (10 ≤ now - t → now - t < 30 →
          getColorStyle st now p = ("orange3", none)) ∧
        (30 ≤ now - t → getColorStyle st now p = ("white", none))) ∧
      (lookupA st.changed p = some (now - 2, .created) →
        getColorStyle st now p = ("green", none))) := by
  constructor
  · intro hdel
    simp [getColorStyle, hdel]
  · intro hdel t
    refine ⟨?_, ?_, ?_⟩
    · intro hev
      refine ⟨?_, ?_, ?_, ?_⟩ <;> intros <;>
        (simp [getColorStyle, getEvent, isRecent, hev, hdel];
         split_ifs <;> intros <;> first | rfl | (exfalso; linarith))
    · intro hev
      refine ⟨?_, ?_, ?_, ?_, ?_⟩ <;> intros <;>
        (simp [getColorStyle, getEvent, isRecent, hev, hdel];
         split_ifs <;> intros <;> first | rfl | (exfalso; linarith))
    · intro hev
      have h2 : now - (now - 2) = 2 := by ring
      simp [getColorStyle, getEvent, isRecent, hev, hdel, h2]
      split_ifs <;> intros <;> first | rfl | (exfalso; linarith)

/-- Witness for `recency_tiers`: a path created at time 0, viewed at time 2
(the exact boundary) with no deletion mark, is green. -/
theorem recency_tiers_witness :
    getColorStyle ⟨[(["w.txt"], (0, .created))], [], [], [], [], 0, 0, 0, 0, 30⟩
      2 ["w.txt"] = ("green", none) :=
  ((recency_tiers ⟨[(["w.txt"], (0, .created))], [], [], [], [], 0, 0, 0, 0, 30⟩
      2 ["w.txt"]).2 (by decide) 0).1 (by decide) |>.2.1 (by norm_num) (by norm_num)

/-- C3 (amended): the scroll offset is clamped to
`[0, max(0, treeHeight - visibleLines)]` only by the navigation commands,
against the tree height recorded at an earlier build; `build_tree` itself
slices `tree_items[scroll_offset : scroll_offset + visible_count]` with
the raw stored offset and reports the header range
`(offset+1, min(offset+visible, total))`, so the returned window has
length `min(visibleCount, totalRows - scrollOffset)` and is empty whenever
the stored offset reaches the current row count — even while
`totalRows > 0` (see the counterexample). -/
theorem scroll_clamping (st : MonState) (fs : FileSys)
    (entries : List FSEntry) (now : Rat) (cnt : Nat) :
    ((scrollUp st).scrollOffset = max 0 (st.scrollOffset - 5) ∧
     (scrollDown st).scrollOffset =
       min (max 0 (st.treeHeight - st.visibleLines)) (st.scrollOffset + 5) ∧
     (pageUp st).scrollOffset = max 0 (st.scrollOffset - st.visibleLines) ∧
     (pageDown st).scrollOffset =
       min (max 0 (st.treeHeight - st.visibleLines))
         (st.scrollOffset + st.visibleLines)) ∧
    ((buildTree fs entries st now cnt).visible =
       ((buildTree fs entries st now cnt).rows.drop st.scrollOffset).take cnt ∧
     (buildTree fs entries st now cnt).startLine = st.scrollOffset + 1 ∧
     (buildTree fs entries st now cnt).endLine =
       min (st.scrollOffset + cnt) (buildTree fs entries st now cnt).total ∧
     (buildTree fs entries st now cnt).visible.length =
       min cnt ((buildTree fs entries st now cnt).rows.length - st.scrollOffset)) ∧
    ((buildTree fs entries st now cnt).rows.length ≤ st.scrollOffset →
      (buildTree fs entries st now cnt).visible = []) := by
  refine ⟨⟨rfl, rfl, rfl, rfl⟩, ⟨rfl, rfl, rfl, ?_⟩, ?_⟩
  · simp [buildTree, List.length_take, List.length_drop, Nat.min_comm]
  · intro hle
    simp only [buildTree] at hle ⊢
    rw [List.drop_eq_nil_of_le hle]
    simp

/-- Witness for `scroll_clamping`: with one row and stored offset 5, the
rendered window is empty. -/
theorem scroll_clamping_witness :
    (buildTree fsAny entriesOne monScroll5 0 3).visible = [] :=
  (scroll_clamping monScroll5 fsAny entriesOne 0 3).2.2 (by decide)

/-- C3 counterexample: the tree has 1 row (`totalRows = 1 > 0`) but the
stored offset 5 — legitimately set earlier when the tree was taller — is
used unclamped by `build_tree`: the returned window is empty and the
header reports the range `6-1 of 1`.  A clamped offset
(`max(0, 1 - 3) = 0`) would have produced a non-empty window. -/
theorem unclamped_slice :
    (buildTree fsAny entriesOne monScroll5 0 3).total = 1 ∧
    0 < (buildTree fsAny entriesOne monScroll5 0 3).total ∧
    (buildTree fsAny entriesOne monScroll5 0 3).visible = [] ∧
    (buildTree fsAny entriesOne monScroll5 0 3).startLine = 6 ∧
    (buildTree fsAny entriesOne monScroll5 0 3).endLine = 1 ∧
    (buildTree fsAny entriesOne
      ⟨[], [], [], [], [], 0, 0, 0, 100, 30⟩ 0 3).visible ≠ [] := by
  refine ⟨by decide, by decide, by decide, by decide, by decide, by decide⟩

theorem assignIdx_eq_indexFrom (fs : FileSys)
    (bk ct : List (PathT × String)) (l : List Row) :
    ∀ i, assignIdx fs bk ct l i =
      (indexFrom i (l.filter (diffRow fs bk ct))).map
        (fun x => (x.1, x.2.path)) := by
  induction l with
  | nil => intro i; simp [assignIdx, indexFrom]
  | cons r rs ih =>
    intro i
    by_cases h : diffRow fs bk ct r = true
    · have h' := h
      unfold diffRow at h'
      simp [assignIdx, h', List.filter_cons, h, indexFrom, ih]
    · have h' : (!r.isDir && isText fs r.path &&
          (getDiff bk ct r.path).isSome) = false := by
        simpa [diffRow] using h
      simp [assignIdx, h', List.filter_cons, h, ih]

/-- C9 (amended): on every `build_tree` call the index map is rebuilt from
scratch, and the rows receiving 1-based sequential indices in traversal
order are exactly the text-file rows with a pending non-empty diff *inside
the sliced visible window* — rows outside the current scroll window
receive no index in `src/FSAR.py` (see the counterexample; the
`src/file_monitor.py` variant has no windowing and indexes every row). -/
theorem diff_index_assignment (fs : FileSys) (entries : List FSEntry)
    (st : MonState) (now : Rat) (cnt : Nat) :
    (buildTree fs entries st now cnt).fileIdx =
      (indexFrom 1 ((buildTree fs entries st now cnt).visible.filter
        (diffRow fs st.backups st.contents))).map (fun x => (x.1, x.2.path)) := by
  simp only [buildTree]
  exact assignIdx_eq_indexFrom fs st.backups st.contents _ 1

/-- C9 counterexample: both `a.txt` and `b.txt` carry pending diffs, but
with a visible window of one row only `a.txt` is indexed; `b.txt`'s row is
in the full row list yet appears nowhere in `file_idx`. -/
theorem diff_index_skips_hidden :
    (⟨["b.txt"], 0, false⟩ : Row) ∈ (buildTree fsAny entriesTwo monTwoDiffs 0 1).rows ∧
    diffRow fsAny monTwoDiffs.backups monTwoDiffs.contents ⟨["b.txt"], 0, false⟩ = true ∧
    (buildTree fsAny entriesTwo monTwoDiffs 0 1).fileIdx = [(1, ["a.txt"])] := by
  refine ⟨by decide, by decide, by decide⟩

/-- C10 (amended): the two `get_diff` variants agree that there is no diff
when either snapshot is missing or the texts are equal, and they return
identical line sequences whenever the baseline exceeds 10 lines or the
current text exceeds 15 lines (both then call the same
`difflib.unified_diff`); for smaller texts `src/FSAR.py` returns its
simple-diff format, which differs from the unified format (see the
counterexample). -/
theorem diff_variants (bk ct : List (PathT × String)) (p : PathT)
    (o n : String) :
    ((lookupA bk p = none ∨ lookupA ct p = none) →
      getDiff bk ct p = none ∧ getDiffFM bk ct p = none) ∧
    (lookupA bk p = some o → lookupA ct p = some n → o = n →
      getDiff bk ct p = none ∧ getDiffFM bk ct p = none) ∧
    (lookupA bk p = some o → lookupA ct p = some n →
      (10 < (splitlinesKeepends o).length ∨ 15 < (splitlinesKeepends n).length) →
      getDiff bk ct p = getDiffFM bk ct p) := by
  refine ⟨?_, ?_, ?_⟩
  · rintro (h | h) <;> simp [getDiff, getDiffFM, h]
  · intro hb hc heq
    subst heq
    simp [getDiff, getDiffFM, hb, hc, diffTexts, diffTextsFM]
  · intro hb hc hbig
    have hsmall : ((splitlinesKeepends o).length ≤ 10 ∧
        (splitlinesKeepends n).length ≤ 15) = False := by
      rcases hbig with h | h <;> simp <;> omega
    simp [getDiff, getDiffFM, hb, hc, diffTexts, diffTextsFM, hsmall]

/-- Witness for `diff_variants`: both variants report no diff for a path
absent from the store, and agree on an 11-line baseline. -/
theorem diff_variants_witness :
    (getDiff [] [] ["x.txt"] = none ∧ getDiffFM [] [] ["x.txt"] = none) ∧
    getDiff [(["y.txt"], "1\n2\n3\n4\n5\n6\n7\n8\n9\n10\n11\n")]
        [(["y.txt"], "Z\n")] ["y.txt"] =
      getDiffFM [(["y.txt"], "1\n2\n3\n4\n5\n6\n7\n8\n9\n10\n11\n")]
        [(["y.txt"], "Z\n")] ["y.txt"] :=
  ⟨(diff_variants [] [] ["x.txt"] "" "").1 (Or.inl rfl),
   (diff_variants [(["y.txt"], "1\n2\n3\n4\n5\n6\n7\n8\n9\n10\n11\n")]
      [(["y.txt"], "Z\n")] ["y.txt"] "1\n2\n3\n4\n5\n6\n7\n8\n9\n10\n11\n" "Z\n").2.2
      (by decide) (by decide) (Or.inl (by decide))⟩

/-- C10 counterexample: for the one-line pair `"a\n"` / `"b\n"` both
variants return a diff, but different line sequences (`src/FSAR.py`'s
simple format vs `difflib`'s unified format). -/
theorem diff_variants_disagree :
    (getDiff bkSmall ctSmall ["a.txt"]).isSome = true ∧
    (getDiffFM bkSmall ctSmall ["a.txt"]).isSome = true ∧
    getDiff bkSmall ctSmall ["a.txt"] ≠ getDiffFM bkSmall ctSmall ["a.txt"] := by
  refine ⟨by decide, by decide, by decide⟩

theorem dropLast_append_lastName {q : PathT} (h : q ≠ []) :
    q.dropLast ++ [lastName q] = q := by
  have h1 : q.getLast? = some (q.getLast h) := List.getLast?_eq_getLast q h
  simp [lastName, h1, List.dropLast_append_getLast h]

/-- The tombstone loop of `_collect_tree_items`: any recently-deleted,
non-dot path whose parent is the directory being listed appears as a row
of that directory level, whatever the live entries are. -/
theorem collectItems_tomb_mem (deleted : List (PathT × Rat)) (now t0 : Rat)
    (p : PathT) (entries : List FSEntry) (dirPath : PathT) (depth fuel : Nat)
    (hlk : lookupA deleted p = some t0) (hne : p ≠ [])
    (hpar : p.dropLast = dirPath) (hdot : startsWithDot (lastName p) = false)
    (hwin : now - t0 < 30) :
    p ∈ (collectItems deleted now (fuel + 1) entries dirPath depth).map Row.path := by
  have hmem : (p, t0) ∈ deleted := lookupA_mem hlk
  have hdel : isDeleted deleted now p 30 = true := by
    simp [isDeleted, hlk]
    exact hwin
  have hemp : ¬p.isEmpty := by simp [hne]
  have htomb : p ∈ deleted.filterMap
      (fun qt => if ¬qt.1.isEmpty ∧ qt.1.dropLast = dirPath ∧
        isDeleted deleted now qt.1 30 then some qt.1 else none) := by
    refine List.mem_filterMap.2 ⟨(p, t0), hmem, ?_⟩
    rw [if_pos ⟨hemp, hpar, hdel⟩]
  simp only [collectItems]
  rw [List.mem_map]
  rcases hf : entries.find? (fun e => entryName e = lastName p) with _ | e
  · refine ⟨⟨p, depth, false⟩, ?_, rfl⟩
    refine (mem_foldr_append _ _ _).2 ⟨LevelItem.tomb p, ?_, ?_⟩
    · exact List.mem_append_right _ (List.mem_map_of_mem _ htomb)
    · simp [hdot, hf]
  · cases e with
    | file nm =>
      refine ⟨⟨p, depth, false⟩, ?_, rfl⟩
      refine (mem_foldr_append _ _ _).2 ⟨LevelItem.tomb p, ?_, ?_⟩
      · exact List.mem_append_right _ (List.mem_map_of_mem _ htomb)
      · simp [hdot, hf]
    | dir nm cs =>
      refine ⟨⟨p, depth, true⟩, ?_, rfl⟩
      refine (mem_foldr_append _ _ _).2 ⟨LevelItem.tomb p, ?_, ?_⟩
      · exact List.mem_append_right _ (List.mem_map_of_mem _ htomb)
      · simp [hdot, hf]

/-- Soundness of the traversal: every collected row is either a live path
of the subtree being walked or a recently-deleted path. -/
theorem collectItems_sound (deleted : List (PathT × Rat)) (now : Rat) :
    ∀ (fuel : Nat) (entries : List FSEntry) (dirPath : PathT) (depth : Nat)
      (r : Row), r ∈ collectItems deleted now fuel entries dirPath depth →
      r.path ∈ livePathsL dirPath entries ∨
        isDeleted deleted now r.path 30 = true := by
  intro fuel
  induction fuel with
  | zero =>
    intro entries dirPath depth r hr
    simp [collectItems] at hr
  | succ fuel ih =>
    intro entries dirPath depth r hr
    simp only [collectItems] at hr
    obtain ⟨it, hit, hrit⟩ := (mem_foldr_append _ _ _).1 hr
    rcases List.mem_append.1 hit with hlive | htomb
    · obtain ⟨e, he, heq⟩ := List.mem_map.1 hlive
      subst heq
      have hent : e ∈ entries := (mem_sortStable entryLe entries e).1 he
      by_cases hdot : startsWithDot (entryName e) = true
      · simp [hdot] at hrit
      · rw [Bool.not_eq_true] at hdot
        simp only [hdot, Bool.false_eq_true, if_false] at hrit
        rcases List.mem_cons.1 hrit with hhead | htail
        · subst hhead
          left
          refine livePathsE_subset hent ?_
          cases e <;> simp [livePathsE, entryName]
        · cases e with
          | file nm => simp at htail
          | dir nm cs =>
            rcases ih cs (dirPath ++ [nm]) (depth + 1) r htail with hin | hdel
            · left
              exact livePathsE_subset hent (by simp [livePathsE, hin])
            · right
              exact hdel
    · obtain ⟨q, hq, heq⟩ := List.mem_map.1 htomb
      subst heq
      obtain ⟨qt, hqt, hif⟩ := List.mem_filterMap.1 hq
      by_cases hcond : ¬qt.1.isEmpty ∧ qt.1.dropLast = dirPath ∧
          isDeleted deleted now qt.1 30
      · rw [if_pos hcond] at hif
        injection hif with hif
        subst hif
        obtain ⟨hemp, hpar, hdel⟩ := hcond
        have hne : qt.1 ≠ [] := by simpa using hemp
        by_cases hdot : startsWithDot (lastName qt.1) = true
        · simp [hdot] at hrit
        · rw [Bool.not_eq_true] at hdot
          simp only [hdot, Bool.false_eq_true, if_false] at hrit
          rcases hf : entries.find? (fun e => entryName e = lastName qt.1)
            with _ | e
          · rw [hf] at hrit
            simp at hrit
            subst hrit
            right
            exact hdel
          · have hent : e ∈ entries := List.mem_of_find?_eq_some hf
            have hname : entryName e = lastName qt.1 := by
              have := List.find?_some hf
              simpa using this
            cases e with
            | file nm =>
              rw [hf] at hrit
              simp at hrit
              subst hrit
              right
              exact hdel
            | dir nm cs =>
              rw [hf] at hrit
              rcases List.mem_cons.1 hrit with hhead | htail
              · subst hhead
                right
                exact hdel
              · rcases ih cs qt.1 (depth + 1) r htail with hin | hdel2
                · left
                  refine livePathsE_subset hent ?_
                  have hq1 : dirPath ++ [nm] = qt.1 := by
                    have := dropLast_append_lastName hne
                    rw [hpar] at this
                    rw [← hname] at this
                    simpa using this
                  simp [livePathsE, hq1, hin]
                · right
                  exact hdel2
      · rw [if_neg hcond] at hif
        simp at hif

/-- C7: tombstone visibility window.  A (non-dot) path holding a deletion
mark at `t0` is appended as a synthetic row at the directory level whose
path is its parent, at every build time `now` with `t0 ≤ now < t0 + 30`,
whatever that directory's live entries are and whether the deleted path
was a file or a directory; and the whole tree built from the root contains
no row for it once `now ≥ t0 + 30` (given it is gone from the live tree). -/
theorem tombstone_window :
    (∀ (deleted : List (PathT × Rat)) (now t0 : Rat) (p : PathT)
      (entries : List FSEntry) (dirPath : PathT) (depth fuel : Nat),
      lookupA deleted p = some t0 → p ≠ [] → p.dropLast = dirPath →
      startsWithDot (lastName p) = false → t0 ≤ now → now < t0 + 30 →
      p ∈ (collectItems deleted now (fuel + 1) entries dirPath depth).map
        Row.path) ∧
    (∀ (deleted : List (PathT × Rat)) (now t0 : Rat) (p : PathT)
      (entries : List FSEntry),
      lookupA deleted p = some t0 → t0 + 30 ≤ now →
      p ∉ livePathsL [] entries →
      p ∉ (collectItems deleted now 10 entries [] 0).map Row.path) := by
  constructor
  · intro deleted now t0 p entries dirPath depth fuel hlk hne hpar hdot hlo hhi
    exact collectItems_tomb_mem deleted now t0 p entries dirPath depth fuel
      hlk hne hpar hdot (by linarith)
  · intro deleted now t0 p entries hlk hexp hlive hmem
    obtain ⟨r, hr, hrp⟩ := List.mem_map.1 hmem
    rcases collectItems_sound deleted now 10 entries [] 0 r hr with h | h
    · exact hlive (hrp ▸ h)
    · rw [hrp] at h
      rw [isDeleted, hlk] at h
      have : now - t0 < 30 := by simpa using h
      linarith

/-- Witness for `tombstone_window`: a path deleted at time 0 is present in
the tree built at time 5 and absent from the tree built at time 40. -/
theorem tombstone_window_witness :
    ["gone.txt"] ∈ (collectItems [(["gone.txt"], 0)] 5 10 [] [] 0).map
      Row.path ∧
    ["gone.txt"] ∉ (collectItems [(["gone.txt"], 0)] 40 10 [] [] 0).map
      Row.path :=
  ⟨tombstone_window.1 [(["gone.txt"], 0)] 5 0 ["gone.txt"] [] [] 0 9
      (by decide) (by decide) (by decide) (by decide) (by norm_num)
      (by norm_num),
   tombstone_window.2 [(["gone.txt"], 0)] 40 0 ["gone.txt"] []
      (by decide) (by norm_num) (by decide)⟩
